import Mathlib

/-!
Verification of the curve-to-polygon assembly engine of `ogrili1layer.cpp`
(`OGRILI1Layer`): surface-ring stitching (`JoinSurfaceLayer`), exterior-ring
classification, area-layer polygonization with crossing repair
(`Polygonize`, `PolygonizeAreaLayer`), point-in-polygon association, and the
layer's reading/lookup state machine (`GetNextFeature`, `GetNextFeatureRef`,
`GetFeatureRef`).

Coordinates are embedded as rationals; the C++ works on `double`, but every
comparison the claims depend on is an exact arithmetic comparison
(`fabs(a-b) < 1e-14`, `dfArea >= dfLargestArea`), so the rational embedding
is faithful on inputs representable in both.

External collaborators (the GEOS engine, the feature store's setters, ring
area and closedness) are not part of the two source files; they are either
kept as abstract parameters or modelled from the spec, as flagged in each
doc comment.
-/

/-- A 2D vertex. The stitcher compares only X and Y (Z is ignored by the
endpoint matching in `JoinSurfaceLayer`), so points are embedded as 2D. -/
structure Pt where
  x : ℚ
  y : ℚ
deriving DecidableEq

/-- The endpoint-matching tolerance `dfEps = 1e-14` of `JoinSurfaceLayer`. -/
def dfEps : ℚ := 1 / 10 ^ 14

/-- `fabs(a.x - b.x) < dfEps && fabs(a.y - b.y) < dfEps`: the coordinatewise
absolute-tolerance endpoint match used by the stitcher. -/
def ptNear (a b : Pt) : Bool :=
  decide (|a.x - b.x| < dfEps ∧ |a.y - b.y| < dfEps)

/-- A curve fragment of the reference line layer: either a simple curve
(`OGRLineString` / `OGRCircularString`: one vertex list) or a compound curve
(`OGRCompoundCurve`: an ordered list of simple sub-curves). -/
inductive Curve where
  | simple : List Pt → Curve
  | compound : List (List Pt) → Curve
deriving DecidableEq

/-- `OGRCurve::StartPoint`: first vertex (for a compound curve, the first
vertex of the first sub-curve). Fragments fed to the stitcher are non-empty
(`!curve->IsEmpty()` is checked before insertion), so the default is never
consulted on reachable inputs. -/
def Curve.startPoint : Curve → Pt
  | .simple ps => ps.headD ⟨0, 0⟩
  | .compound cs => (cs.headD []).headD ⟨0, 0⟩

/-- `OGRCurve::EndPoint`: last vertex (for a compound curve, the last vertex
of the last sub-curve). -/
def Curve.endPoint : Curve → Pt
  | .simple ps => ps.getLastD ⟨0, 0⟩
  | .compound cs => (cs.getLastD []).getLastD ⟨0, 0⟩

/-- Sub-curves appended to the ring under construction when a fragment is
absorbed in forward orientation: a simple curve is added as one member
(`poCC->addCurve(curve)`), a compound curve contributes its sub-curves in
original order (`for (auto &&subCurve : poCCSub) poCC->addCurve(subCurve)`). -/
def Curve.forwardSegs : Curve → List (List Pt)
  | .simple ps => [ps]
  | .compound cs => cs

/-- Sub-curves appended when a fragment is absorbed reversed: a simple curve
is cloned and its points reversed (`poSC->reversePoints()`); a compound curve
contributes its sub-curves in reversed order, each with reversed points
(the `for (int i = poCCSub->getNumCurves() - 1; i >= 0; --i)` loop). -/
def Curve.reverseSegs : Curve → List (List Pt)
  | .simple ps => [ps.reverse]
  | .compound cs => cs.reverse.map List.reverse

/-- The ring under construction (`poCC : OGRCompoundCurve`): its ordered list
of simple member curves. -/
abbrev RingCC := List (List Pt)

/-- First vertex of the ring under construction. -/
def ringStart (r : RingCC) : Pt := (r.headD []).headD ⟨0, 0⟩

/-- Last vertex of the ring under construction (this always coincides with
the tracked trailing endpoint `endPointCC`). -/
def ringEnd (r : RingCC) : Pt := (r.getLastD []).getLastD ⟨0, 0⟩

/-- Modelled from the spec: `OGRCurve::get_IsClosed` is library code outside
the two source files; the spec describes the ring closedness test as "start
vertex equals end vertex within tolerance" with the stitching tolerance
`ε = 1e-14`. Every evaluation in the stitcher is on a ring with at least one
absorbed fragment. -/
def ringIsClosed (r : RingCC) : Bool := ptNear (ringStart r) (ringEnd r)

/-- One full scan of the remaining fragment pool (the
`for (oIterCurves = oCurves.begin(); ...)` loop body of `JoinSurfaceLayer`):
walks the pool in order; the first fragment whose start matches the trailing
endpoint (or any fragment at all when `bFirst`) is absorbed forward, a
fragment whose end matches is absorbed reversed; the absorbed fragment is
erased from the pool in place. Returns the appended sub-curves, the new
trailing endpoint (`curve->EndPoint(&endPointCC)` forward,
`curve->StartPoint(&endPointCC)` reversed) and the remaining pool, or `none`
when no fragment matches (`bNewCurveAdded` stays false). -/
def scanStep (bFirst : Bool) (endCC : Pt) : List Curve →
    Option (List (List Pt) × Pt × List Curve)
  | [] => none
  | c :: rest =>
    if bFirst || ptNear c.startPoint endCC then
      some (c.forwardSegs, c.endPoint, rest)
    else if ptNear c.endPoint endCC then
      some (c.reverseSegs, c.startPoint, rest)
    else
      match scanStep bFirst endCC rest with
      | none => none
      | some (segs, e, p) => some (segs, e, c :: p)

/-- State of the inner stitching loop: the ring built so far, the trailing
endpoint `endPointCC`, the `bFirst` flag, and the remaining fragment pool. -/
structure LoopState where
  ring : RingCC
  endCC : Pt
  bFirst : Bool
  pool : List Curve
deriving DecidableEq

/-- The inner `while (true)` loop of `JoinSurfaceLayer`: repeat full scans of
the pool, stopping when no fragment was absorbed, the pool is exhausted, or
the ring is closed (`if (!bNewCurveAdded || oCurves.empty() ||
poCC->get_IsClosed()) break;`). Each successful scan removes exactly one
fragment, so `st.pool.length` rounds of fuel always suffice. -/
def buildRingLoop : Nat → LoopState → LoopState
  | 0, st => st
  | fuel + 1, st =>
    match scanStep st.bFirst st.endCC st.pool with
    | none => st
    | some (segs, e', p') =>
      let st' : LoopState := ⟨st.ring ++ segs, e', false, p'⟩
      if p'.isEmpty || ringIsClosed st'.ring then st'
      else buildRingLoop fuel st'

/-- Accumulated state of the outer per-feature loop of `JoinSurfaceLayer`:
the closed rings collected in insertion order (`oSetDestCurves`), the running
largest area (`dfLargestArea`, initialised to `0.0`), the index of the
current largest ring (`poLargestCurve`, initialised to null), and the number
of unclosed-ring warnings emitted. -/
structure StitchState where
  rings : List RingCC
  dfLargestArea : ℚ
  largest : Option Nat
  warnings : Nat
deriving DecidableEq

/-- The largest-ring update performed as each closed ring is recorded:
`if (dfArea >= dfLargestArea) { dfLargestArea = dfArea; poLargestCurve = poCC; }`. -/
def updateLargest (s : ℚ × Option Nat) (idx : Nat) (a : ℚ) : ℚ × Option Nat :=
  if s.1 ≤ a then (a, some idx) else s

/-- The outer `while (true)` loop of `JoinSurfaceLayer` for one feature,
parameterised by the external area capability `A` (`poCC->get_Area()`).
While the pool is non-empty: build one ring by the inner loop (starting from
an empty compound curve, `bFirst = true`); if it closed, record it and update
the largest-ring tracking, else count one unclosed-ring warning (the ring is
discarded and processing continues). Each ring attempt absorbs at least one
fragment, so `pool.length` rounds of fuel always suffice. -/
def stitchLoop (A : RingCC → ℚ) : Nat → StitchState → List Curve → StitchState
  | 0, st, _ => st
  | fuel + 1, st, pool =>
    if pool.isEmpty then st
    else
      let res := buildRingLoop pool.length ⟨[], ⟨0, 0⟩, true, pool⟩
      if !ringIsClosed res.ring then
        stitchLoop A fuel ⟨st.rings, st.dfLargestArea, st.largest, st.warnings + 1⟩ res.pool
      else
        let lg := updateLargest (st.dfLargestArea, st.largest) st.rings.length (A res.ring)
        stitchLoop A fuel ⟨st.rings ++ [res.ring], lg.1, lg.2, st.warnings⟩ res.pool

/-- Ring assembly for one feature's fragment set (`JoinSurfaceLayer`, lines
534-648): starts with no rings, `dfLargestArea = 0.0`, no largest curve and
no warnings. -/
def stitchRings (A : RingCC → ℚ) (pool : List Curve) : StitchState :=
  stitchLoop A pool.length ⟨[], 0, none, 0⟩ pool

/-- The final polygon built from the closed rings (lines 650-701): if a
largest curve was selected, its ring is removed from the candidate list
(erase of the first pointer match; ring indices are unique object
identities, so this is `eraseIdx`) and inserted first, followed by the
remaining rings in insertion order as holes. If no ring closed, the polygon
stays empty. -/
def buildPolygonFromRings (st : StitchState) : List RingCC :=
  match st.largest with
  | none => []
  | some i =>
    match st.rings.get? i with
    | none => []
    | some ext => ext :: st.rings.eraseIdx i

/-- The geometry field of a feature that owned at least one fragment, after
`JoinSurfaceLayer`: `feature->SetGeomFieldDirectly(nSurfaceFieldIndex, poPoly)`
runs unconditionally, so the field is always assigned (possibly an empty
polygon). -/
def joinSurfaceGeomField (A : RingCC → ℚ) (pool : List Curve) : Option (List RingCC) :=
  some (buildPolygonFromRings (stitchRings A pool))

/-- Index-carrying fold of `updateLargest`: the value of
`(dfLargestArea, poLargestCurve)` after processing the closed rings with
areas `as`, the next ring receiving index `i`. Used to characterise the
exterior-ring selection of the interleaved loop. -/
def foldLargestAux : ℚ × Option Nat → Nat → List ℚ → ℚ × Option Nat
  | s, _, [] => s
  | s, i, a :: as => foldLargestAux (updateLargest s i a) (i + 1) as

/-- Twice the signed shoelace sum over the cyclic vertex sequence starting
(and implicitly closing) at `first`. -/
def shoelaceSum (first : Pt) : List Pt → ℚ
  | [] => 0
  | [p] => p.x * first.y - first.x * p.y
  | p :: q :: rest => (p.x * q.y - q.x * p.y) + shoelaceSum first (q :: rest)

/-- Modelled from the spec: the planar area of a closed ring
(`poCC->get_Area()`, an external geometry capability: "record its area
(external geometry capability)") — the absolute shoelace area over the
ring's concatenated vertex list. Repeated junction vertices contribute zero
to the sum, so chaining sub-curves is harmless. -/
def ringArea (r : RingCC) : ℚ :=
  match r.flatten with
  | [] => 0
  | p :: ps => |shoelaceSum p (p :: ps)| / 2

/-- The fragment scan as the claim's sentence describes it (for comparison
with `scanStep`, which embeds the source): one full pass looking only for a
forward match (start point near the trailing endpoint, or anything when
`bFirst`), and only if no forward match exists anywhere in the pool, a
second full pass looking for a reverse match. -/
def scanStepClaim (bFirst : Bool) (endCC : Pt) (pool : List Curve) :
    Option (List (List Pt) × Pt × List Curve) :=
  match pool.findIdx? (fun c => bFirst || ptNear c.startPoint endCC) with
  | some i =>
    match pool.get? i with
    | some c => some (c.forwardSegs, c.endPoint, pool.eraseIdx i)
    | none => none
  | none =>
    match pool.findIdx? (fun c => ptNear c.endPoint endCC) with
    | some i =>
      match pool.get? i with
      | some c => some (c.reverseSegs, c.startPoint, pool.eraseIdx i)
      | none => none
    | none => none

/-! ## Area-layer polygonization (`Polygonize`, `PolygonizeAreaLayer`) -/

/-- Flattened geometry type of a union result, as tested by
`wkbFlatten(poUnion->getGeometryType())` in `Polygonize`. -/
inductive GType where
  | geometryCollection
  | multiLineString
  | other
deriving DecidableEq

/-- The external GEOS capabilities consumed by `Polygonize`, abstract over
the line type `L` and polygon type `P`:
`union lines l` is `poLines->Union(l)` on the whole collection (`none`
models a null result), returning the flattened type of the result and its
member lines; `polygonizeLines` is the export + `GEOSPolygonize_r` +
`createFromGEOS` + `forceToMultiPolygon` pipeline. -/
structure PolyEngine (L P : Type) where
  union : List L → L → Option (GType × List L)
  polygonizeLines : List L → List P

/-- `OGRILI1Layer::Polygonize` (GEOS build), instrumented with a count of
engine invocations: an empty batch returns an empty multipolygon before any
engine call; with `fix_crossing_lines`, the collection is unioned with its
own first member, and the union result replaces the batch only when it is a
geometry collection or a multi-line-string (otherwise it is discarded);
extraction then exports every source line (one engine call each) and runs
the polygonizer (one call). -/
def Polygonize {L P : Type} (E : PolyEngine L P) (lines : List L)
    (fixCrossing : Bool) : List P × Nat :=
  match lines with
  | [] => ([], 0)
  | l0 :: rest =>
    let src : List L :=
      if fixCrossing then
        match E.union (l0 :: rest) l0 with
        | some (k, ms) =>
          if k = GType.geometryCollection ∨ k = GType.multiLineString then ms
          else l0 :: rest
        | none => l0 :: rest
      else l0 :: rest
    (E.polygonizeLines src, (if fixCrossing then 1 else 0) + src.length + 1)

/-- The polygonize/retry orchestration of `PolygonizeAreaLayer` (lines
815-826): one pass without crossing repair; if the polygon count differs
from the layer's feature count, exactly one further pass with crossing
repair. The second component records the `fix_crossing_lines` flag of every
pass performed, in order. -/
def polygonizeAreaPasses {L P : Type} (E : PolyEngine L P) (lines : List L)
    (expected : Nat) : List P × List Bool :=
  let polys1 := (Polygonize E lines false).1
  if polys1.length ≠ expected then ((Polygonize E lines true).1, [false, true])
  else (polys1, [false])

/-! ## Point-to-polygon association (`PolygonizeAreaLayer`, lines 830-875) -/

/-- A geometry value written into a feature's geometry field: one of the
candidate polygons, or the empty polygon `emptyPoly`. -/
inductive GeomVal (P : Type) where
  | poly : P → GeomVal P
  | emptyPoly : GeomVal P
deriving DecidableEq

/-- A target feature of the area layer: its companion point geometry (the
value of `GetGeomFieldRef(nPointFieldIndex)`, `none` when absent) and its
geometry fields by index. -/
structure AFeature (P Q : Type) where
  point : Option Q
  fields : List (Option (GeomVal P))
deriving DecidableEq

/-- `OGRFeature::SetGeomField(i, g)`: writes geometry field `i`. -/
def setGeomField {P Q : Type} (f : AFeature P Q) (i : Nat) (v : GeomVal P) :
    AFeature P Q :=
  { f with fields := f.fields.set i (some v) }

/-- Modelled from the spec: `OGRFeature::SetGeometry` belongs to the
external feature store (not in the source files); the store owns "zero or
one geometry value per geometry-bearing field" and its index-less setter
writes the feature's default (first) geometry field, index 0. -/
def setGeometry {P Q : Type} (f : AFeature P Q) (v : GeomVal P) : AFeature P Q :=
  { f with fields := f.fields.set 0 (some v) }

/-- The external GEOS capabilities of the association loop: `isValid p` is
`GEOSisValid_r` on the exported candidate (candidates failing it are nulled
out before the feature loop and excluded from matching), `contains p q` is
`GEOSWithin_r(point q, polygon p)`. -/
structure AssocEngine (P Q : Type) where
  isValid : P → Bool
  contains : P → Q → Bool

/-- The per-feature body of the association loop (lines 844-871),
returning the updated feature and the number of diagnostics emitted:
a feature without a companion point is skipped (`continue`); otherwise the
candidates are scanned in order and the first valid one containing the point
is written to the area field (`SetGeomField(nAreaFieldIndex, ...)`); if none
contains it, one diagnostic is emitted and the empty polygon is written via
the index-less setter (`SetGeometry(&emptyPoly)`). -/
def associateFeature {P Q : Type} (E : AssocEngine P Q) (polys : List P)
    (areaIdx : Nat) (f : AFeature P Q) : AFeature P Q × Nat :=
  match f.point with
  | none => (f, 0)
  | some q =>
    match polys.find? (fun p => E.isValid p && E.contains p q) with
    | some p => (setGeomField f areaIdx (GeomVal.poly p), 0)
    | none => (setGeometry f GeomVal.emptyPoly, 1)

/-! ## Layer reading and lookup state machine -/

/-- The reading state of an `OGRILI1Layer`: the stored feature array
`papoFeatures`, the cursor `nFeatureIdx`, the `bGeomsJoined` flag, and an
instrumentation counter of completed `JoinGeomLayers` runs. -/
structure LayerState (F : Type) where
  features : List F
  featureIdx : Nat
  geomsJoined : Bool
  joinCount : Nat
deriving DecidableEq

/-- The filter test of `GetNextFeatureRef`: the feature passes when the
spatial filter is unset or accepts it, and the attribute filter is unset or
accepts it. -/
def filtersPass {F : Type} (gF aF : Option (F → Bool)) (f : F) : Bool :=
  (match gF with | none => true | some p => p f) &&
  (match aF with | none => true | some p => p f)

/-- `OGRILI1Layer::GetNextFeatureRef`: if the cursor is within the feature
array, advance it past the current feature; return that feature when it
passes both filters, else return null (with the cursor already advanced).
The `bGeomsJoined` flag is not consulted. -/
def getNextFeatureRef {F : Type} (gF aF : Option (F → Bool))
    (st : LayerState F) : Option F × LayerState F :=
  match st.features.get? st.featureIdx with
  | some f =>
    let st' := { st with featureIdx := st.featureIdx + 1 }
    if filtersPass gF aF f then (some f, st') else (none, st')
  | none => (none, st)

/-- `OGRILI1Layer::JoinGeomLayers`, abstracted over the geometry-table joins
`J` performed on the feature store: it sets `bGeomsJoined` first (line 446)
and then runs the joins. (The joins may also move the cursor of the layers
involved; the cursor is irrelevant to the claims about the flag.) -/
def joinGeomLayers {F : Type} (J : List F → List F) (st : LayerState F) :
    LayerState F :=
  { st with geomsJoined := true, features := J st.features,
            joinCount := st.joinCount + 1 }

/-- The `while (nFeatureIdx < nFeatures)` loop of `GetNextFeature`: repeat
`GetNextFeatureRef` until a feature passes (returned to the caller as a
clone, i.e. by value) or the cursor reaches the end. Each call advances the
cursor while it is in range, so `length - featureIdx` rounds of fuel always
suffice. -/
def getNextFeatureLoop {F : Type} (gF aF : Option (F → Bool)) :
    Nat → LayerState F → Option F × LayerState F
  | 0, st => (none, st)
  | fuel + 1, st =>
    if st.featureIdx < st.features.length then
      match getNextFeatureRef gF aF st with
      | (some f, st') => (some f, st')
      | (none, st') => getNextFeatureLoop gF aF fuel st'
    else (none, st)

/-- `OGRILI1Layer::GetNextFeature`: runs `JoinGeomLayers` first when
`bGeomsJoined` is unset, then scans for the next filter-passing feature. -/
def getNextFeature {F : Type} (J : List F → List F) (gF aF : Option (F → Bool))
    (st : LayerState F) : Option F × LayerState F :=
  let st1 := if st.geomsJoined then st else joinGeomLayers J st
  getNextFeatureLoop gF aF (st1.features.length - st1.featureIdx) st1

/-- The `while ((poFeature = GetNextFeatureRef()) != nullptr)` lookup loop of
`GetFeatureRef`: stops at the first null from `GetNextFeatureRef` — which
happens both at the end of the array and at the first feature rejected by a
filter — and otherwise returns the first feature matching the key
(`GetFID() == nFID`, or `strcmp` of the first attribute field). -/
def getFeatureRefLoop {F : Type} (gF aF : Option (F → Bool)) (key : F → Bool) :
    Nat → LayerState F → Option F × LayerState F
  | 0, st => (none, st)
  | fuel + 1, st =>
    match getNextFeatureRef gF aF st with
    | (none, st') => (none, st')
    | (some f, st') =>
      if key f then (some f, st') else getFeatureRefLoop gF aF key fuel st'

/-- `OGRILI1Layer::GetFeatureRef`: `ResetReading()` (cursor to 0), then the
lookup loop; the cursor is not restored afterwards. -/
def getFeatureRefByKey {F : Type} (gF aF : Option (F → Bool)) (key : F → Bool)
    (st : LayerState F) : Option F × LayerState F :=
  let st0 := { st with featureIdx := 0 }
  getFeatureRefLoop gF aF key st0.features.length st0

/-! ## Concrete example inputs used by the witnesses and counterexamples -/

/-- A trailing endpoint `(1, 0)` reached after absorbing the fragment
`(0,0)-(1,0)`. -/
def exEndCC : Pt := ⟨1, 0⟩

/-- A fragment whose end (but not start) matches `exEndCC`: a reverse match. -/
def exRevCurve : Curve := .simple [⟨5, 5⟩, ⟨1, 0⟩]

/-- A fragment whose start matches `exEndCC`: a forward match. -/
def exFwdCurve : Curve := .simple [⟨1, 0⟩, ⟨0, 0⟩]

/-- A closed unit square as a single fragment. -/
def sqOne : Curve := .simple [⟨0, 0⟩, ⟨1, 0⟩, ⟨1, 1⟩, ⟨0, 1⟩, ⟨0, 0⟩]

/-- A second closed unit square, disjoint from `sqOne`, same area. -/
def sqTwo : Curve := .simple [⟨10, 0⟩, ⟨11, 0⟩, ⟨11, 1⟩, ⟨10, 1⟩, ⟨10, 0⟩]

/-- First side of a triangle that will not close. -/
def triA : Curve := .simple [⟨0, 0⟩, ⟨4, 0⟩]

/-- Second side of the triangle. -/
def triB : Curve := .simple [⟨4, 0⟩, ⟨0, 3⟩]

/-- Third side of the triangle, stopping at `(0, 1)`: a gap of one unit
(far above `dfEps`) back to the start `(0, 0)`. -/
def triC : Curve := .simple [⟨0, 3⟩, ⟨0, 1⟩]

/-- A polygon engine over `Nat` lines/polygons whose union always returns
null and whose extraction returns one polygon per line. -/
def exPolyEngineId : PolyEngine Nat Nat := ⟨fun _ _ => none, fun ls => ls⟩

/-- A polygon engine whose union returns a multi-line-string with members
`[2, 3]`. -/
def exPolyEngineMLS : PolyEngine Nat Nat :=
  ⟨fun _ _ => some (GType.multiLineString, [2, 3]), fun ls => ls⟩

/-- An association engine for which no candidate contains any point. -/
def exAssocNone : AssocEngine Nat Nat := ⟨fun _ => true, fun _ _ => false⟩

/-- An association engine whose containment test is numeric equality. -/
def exAssocEq : AssocEngine Nat Nat := ⟨fun _ => true, fun p q => decide (p = q)⟩

/-- A feature with a companion point and two unset geometry fields
(the area field will be index 1). -/
def exFeatTwoFields : AFeature Nat Nat := ⟨some 3, [none, none]⟩

/-- A feature whose companion point `7` equals the second candidate. -/
def exFeatPoint7 : AFeature Nat Nat := ⟨some 7, [none]⟩

/-- A one-feature layer that has not yet joined its geometry layers. -/
def exLayerUnjoined : LayerState Nat := ⟨[7], 0, false, 0⟩

/-- An attribute-free spatial filter accepting only the feature `1`. -/
def exFilterOnly1 : Option (Nat → Bool) := some (fun f => decide (f = 1))

/-- The lookup key matching the feature `1`. -/
def exKey1 (f : Nat) : Bool := decide (f = 1)

/-- A two-feature layer whose first feature fails `exFilterOnly1`. -/
def exLayerTwo : LayerState Nat := ⟨[0, 1], 0, true, 0⟩

/-- The lookup key matching the feature `5`. -/
def exKey5 (f : Nat) : Bool := decide (f = 5)

/-- A three-feature layer with the cursor mid-way (it must be reset by the
lookup). -/
def exLayerThree : LayerState Nat := ⟨[4, 5, 6], 2, true, 0⟩

/-! ## Helper lemmas -/

theorem scanStep_length {b : Bool} {e : Pt} {pool : List Curve}
    {segs : List (List Pt)} {e' : Pt} {p' : List Curve}
    (h : scanStep b e pool = some (segs, e', p')) :
    p'.length + 1 = pool.length := by
  induction pool generalizing segs e' p' with
  | nil => simp [scanStep] at h
  | cons c rest ih =>
    simp only [scanStep] at h
    split at h
    · cases h
      simp
    · split at h
      · cases h
        simp
      · cases hr : scanStep b e rest with
        | none => rw [hr] at h; cases h
        | some v =>
          obtain ⟨s2, e2, p2⟩ := v
          rw [hr] at h
          cases h
          simpa using congrArg Nat.succ (ih hr)

theorem foldLargestAux_append (s : ℚ × Option Nat) (i : Nat) (as : List ℚ)
    (a : ℚ) :
    foldLargestAux s i (as ++ [a])
      = updateLargest (foldLargestAux s i as) (i + as.length) a := by
  induction as generalizing s i with
  | nil => simp [foldLargestAux]
  | cons b bs ih =>
    simp only [List.cons_append, foldLargestAux, ih, List.length_cons]
    have hidx : i + 1 + bs.length = i + (bs.length + 1) := by omega
    rw [List.append_eq, ih, hidx]

theorem foldLargestAux_spec (as : List ℚ) (s : ℚ × Option Nat) (i0 : Nat) :
    (foldLargestAux s i0 as = s ∧ ∀ a ∈ as, a < s.1) ∨
    (∃ j a, as.get? j = some a ∧ foldLargestAux s i0 as = (a, some (i0 + j)) ∧
      s.1 ≤ a ∧ (∀ k b, as.get? k = some b → b ≤ a) ∧
      (∀ k b, j < k → as.get? k = some b → b < a)) := by
  induction as generalizing s i0 with
  | nil => exact Or.inl ⟨rfl, by simp⟩
  | cons a as ih =>
    simp only [foldLargestAux]
    by_cases hle : s.1 ≤ a
    · have hupd : updateLargest s i0 a = (a, some i0) := by
        simp [updateLargest, hle]
      rw [hupd]
      rcases ih (a, some i0) (i0 + 1) with ⟨hres, hall⟩ | ⟨j, a', hget, hres, hle', hall, hstrict⟩
      · refine Or.inr ⟨0, a, rfl, ?_, hle, ?_, ?_⟩
        · simpa using hres
        · intro k b hk
          cases k with
          | zero =>
            simp only [List.get?_cons_zero, Option.some.injEq] at hk
            exact hk ▸ le_refl a
          | succ k =>
            simp only [List.get?_cons_succ] at hk
            exact le_of_lt (hall b (List.get?_mem hk))
        · intro k b hk hget'
          cases k with
          | zero => omega
          | succ k =>
            simp only [List.get?_cons_succ] at hget'
            exact hall b (List.get?_mem hget')
      · refine Or.inr ⟨j + 1, a', by simpa using hget, ?_, le_trans hle hle', ?_, ?_⟩
        · rw [hres]
          congr 2
          omega
        · intro k b hk
          cases k with
          | zero =>
            simp at hk
            subst hk
            exact hle'
          | succ k =>
            simp only [List.get?_cons_succ] at hk
            exact hall k b hk
        · intro k b hjk hk
          cases k with
          | zero => omega
          | succ k =>
            simp only [List.get?_cons_succ] at hk
            exact hstrict k b (by omega) hk
    · have hupd : updateLargest s i0 a = s := by
        simp [updateLargest, hle]
      rw [hupd]
      have hlt : a < s.1 := lt_of_not_ge hle
      rcases ih s (i0 + 1) with ⟨hres, hall⟩ | ⟨j, a', hget, hres, hle', hall, hstrict⟩
      · refine Or.inl ⟨hres, ?_⟩
        intro b hb
        rcases List.mem_cons.mp hb with hb | hb
        · subst hb; exact hlt
        · exact hall b hb
      · refine Or.inr ⟨j + 1, a', by simpa using hget, ?_, hle', ?_, ?_⟩
        · rw [hres]
          congr 2
          omega
        · intro k b hk
          cases k with
          | zero =>
            simp at hk
            subst hk
            exact le_of_lt (lt_of_lt_of_le hlt hle')
          | succ k =>
            simp only [List.get?_cons_succ] at hk
            exact hall k b hk
        · intro k b hjk hk
          cases k with
          | zero => omega
          | succ k =>
            simp only [List.get?_cons_succ] at hk
            exact hstrict k b (by omega) hk

theorem stitchLoop_largest_inv (A : RingCC → ℚ) (fuel : Nat)
    (pool : List Curve) (st : StitchState)
    (h : (st.dfLargestArea, st.largest) = foldLargestAux (0, none) 0 (st.rings.map A)) :
    ((stitchLoop A fuel st pool).dfLargestArea, (stitchLoop A fuel st pool).largest)
      = foldLargestAux (0, none) 0 ((stitchLoop A fuel st pool).rings.map A) := by
  induction fuel generalizing st pool with
  | zero => simpa [stitchLoop] using h
  | succ fuel ih =>
    rw [stitchLoop]
    by_cases hp : pool.isEmpty
    · simpa [hp] using h
    · simp only [hp, Bool.false_eq_true, if_false]
      by_cases hc : ringIsClosed (buildRingLoop pool.length ⟨[], ⟨0, 0⟩, true, pool⟩).ring
      · simp only [hc, Bool.not_true, Bool.false_eq_true, if_false]
        apply ih
        simp only [List.map_append, List.map_cons, List.map_nil]
        rw [foldLargestAux_append, ← h]
        simp [List.length_map]
      · simp only [hc, Bool.not_false, if_true]
        exact ih _ _ h

theorem ringArea_nonneg (r : RingCC) : 0 ≤ ringArea r := by
  rw [ringArea]
  cases r.flatten with
  | nil => exact le_refl 0
  | cons p ps => positivity

theorem find?_first {α : Type} (p : α → Bool) (l : List α) (i : Nat) (a : α)
    (hi : l.get? i = some a) (ha : p a = true)
    (hprev : ∀ j b, j < i → l.get? j = some b → p b = false) :
    l.find? p = some a := by
  induction l generalizing i with
  | nil => simp at hi
  | cons c t ih =>
    cases i with
    | zero =>
      simp only [List.get?_cons_zero, Option.some.injEq] at hi
      subst hi
      simp [List.find?_cons, ha]
    | succ i =>
      have hc : p c = false := hprev 0 c (Nat.succ_pos i) rfl
      simp only [List.get?_cons_succ] at hi
      rw [List.find?_cons, hc]
      exact ih i hi fun j b hj hget => hprev (j + 1) b (by omega) hget

theorem getNextFeatureRef_flags {F : Type} (gF aF : Option (F → Bool))
    (st : LayerState F) :
    (getNextFeatureRef gF aF st).2.geomsJoined = st.geomsJoined
    ∧ (getNextFeatureRef gF aF st).2.joinCount = st.joinCount
    ∧ (getNextFeatureRef gF aF st).2.features = st.features := by
  rw [getNextFeatureRef]
  cases st.features.get? st.featureIdx with
  | none => exact ⟨rfl, rfl, rfl⟩
  | some f =>
    by_cases hp : filtersPass gF aF f <;> simp [hp]

theorem getNextFeatureLoop_flags {F : Type} (gF aF : Option (F → Bool))
    (fuel : Nat) (st : LayerState F) :
    (getNextFeatureLoop gF aF fuel st).2.geomsJoined = st.geomsJoined
    ∧ (getNextFeatureLoop gF aF fuel st).2.joinCount = st.joinCount := by
  induction fuel generalizing st with
  | zero => exact ⟨rfl, rfl⟩
  | succ fuel ih =>
    rw [getNextFeatureLoop]
    by_cases hlt : st.featureIdx < st.features.length
    · rw [if_pos hlt]
      obtain ⟨h1, h2, _⟩ := getNextFeatureRef_flags gF aF st
      cases hr : getNextFeatureRef gF aF st with
      | mk o st' =>
        rw [hr] at h1 h2
        cases o with
        | some f => exact ⟨h1, h2⟩
        | none => exact ⟨(ih st').1.trans h1, (ih st').2.trans h2⟩
    · rw [if_neg hlt]
      exact ⟨rfl, rfl⟩

theorem drop_eq_cons_of_get? {α : Type} (l : List α) (n : Nat) (a : α)
    (h : l.get? n = some a) : l.drop n = a :: l.drop (n + 1) := by
  induction l generalizing n with
  | nil => simp at h
  | cons c t ih =>
    cases n with
    | zero =>
      simp only [List.get?_cons_zero, Option.some.injEq] at h
      subst h
      rfl
    | succ n =>
      simp only [List.get?_cons_succ] at h
      simpa using ih n h

theorem lt_of_get?_some {α : Type} (l : List α) (n : Nat) (a : α)
    (h : l.get? n = some a) : n < l.length := by
  by_contra hc
  rw [List.get?_eq_none.mpr (by omega)] at h
  cases h

theorem getFeatureRefLoop_find {F : Type} (gF aF : Option (F → Bool))
    (key : F → Bool) (fuel : Nat) (st : LayerState F)
    (hf : st.features.length - st.featureIdx ≤ fuel) :
    (getFeatureRefLoop gF aF key fuel st).1
      = ((st.features.drop st.featureIdx).takeWhile (filtersPass gF aF)).find? key := by
  induction fuel generalizing st with
  | zero =>
    have hdrop : st.features.drop st.featureIdx = [] :=
      List.drop_eq_nil_of_le (by omega)
    rw [hdrop]
    rfl
  | succ fuel ih =>
    rw [getFeatureRefLoop]
    cases hget : st.features.get? st.featureIdx with
    | none =>
      have hr : getNextFeatureRef gF aF st = (none, st) := by
        rw [getNextFeatureRef, hget]
      rw [hr]
      have hdrop : st.features.drop st.featureIdx = [] :=
        List.drop_eq_nil_of_le (List.get?_eq_none.mp hget)
      rw [hdrop]
      rfl
    | some f =>
      have hdrop : st.features.drop st.featureIdx = f :: st.features.drop (st.featureIdx + 1) :=
        drop_eq_cons_of_get? _ _ _ hget
      have hlt : st.featureIdx < st.features.length := lt_of_get?_some _ _ _ hget
      by_cases hp : filtersPass gF aF f
      · have hr : getNextFeatureRef gF aF st
            = (some f, { st with featureIdx := st.featureIdx + 1 }) := by
          rw [getNextFeatureRef, hget]
          simp [hp]
        rw [hr]
        have hrec := ih { st with featureIdx := st.featureIdx + 1 } (by simp; omega)
        by_cases hk : key f
        · simp [hdrop, List.takeWhile_cons, hp, hk, List.find?_cons]
        · simpa [hdrop, List.takeWhile_cons, hp, hk, List.find?_cons] using hrec
      · have hr : getNextFeatureRef gF aF st
            = (none, { st with featureIdx := st.featureIdx + 1 }) := by
          rw [getNextFeatureRef, hget]
          simp [hp]
        rw [hr]
        simp [hdrop, List.takeWhile_cons, hp]

theorem getFeatureRefLoop_found {F : Type} (gF aF : Option (F → Bool))
    (key : F → Bool) (fuel : Nat) (st : LayerState F) (f : F)
    (h : (getFeatureRefLoop gF aF key fuel st).1 = some f) :
    1 ≤ (getFeatureRefLoop gF aF key fuel st).2.featureIdx
    ∧ (getFeatureRefLoop gF aF key fuel st).2.features.get?
        ((getFeatureRefLoop gF aF key fuel st).2.featureIdx - 1) = some f := by
  induction fuel generalizing st with
  | zero => cases h
  | succ fuel ih =>
    rw [getFeatureRefLoop] at h ⊢
    cases hget : st.features.get? st.featureIdx with
    | none =>
      have hr : getNextFeatureRef gF aF st = (none, st) := by
        rw [getNextFeatureRef, hget]
      rw [hr] at h
      cases h
    | some g =>
      by_cases hp : filtersPass gF aF g
      · have hr : getNextFeatureRef gF aF st
            = (some g, { st with featureIdx := st.featureIdx + 1 }) := by
          rw [getNextFeatureRef, hget]
          simp [hp]
        rw [hr] at h ⊢
        by_cases hk : key g
        · simp only [hk, if_true] at h ⊢
          cases h
          exact ⟨by omega, by simpa using hget⟩
        · simp only [hk, Bool.false_eq_true, if_false] at h ⊢
          exact ih _ h
      · have hr : getNextFeatureRef gF aF st
            = (none, { st with featureIdx := st.featureIdx + 1 }) := by
          rw [getNextFeatureRef, hget]
          simp [hp]
        rw [hr] at h
        cases h

theorem scanStep_forward_at {b : Bool} {e : Pt} :
    ∀ (pool : List Curve) (i : Nat) (c : Curve),
    pool.get? i = some c →
    (∀ j d, j < i → pool.get? j = some d →
      (b || ptNear d.startPoint e) = false ∧ ptNear d.endPoint e = false) →
    (b || ptNear c.startPoint e) = true →
    scanStep b e pool = some (c.forwardSegs, c.endPoint, pool.eraseIdx i)
  | [], i, c, hi, _, _ => by simp at hi
  | d :: rest, 0, c, hi, _, hfwd => by
    simp only [List.get?_cons_zero, Option.some.injEq] at hi
    subst hi
    simp [scanStep, hfwd]
  | d :: rest, i + 1, c, hi, hprev, hfwd => by
    obtain ⟨h1, h2⟩ := hprev 0 d (Nat.succ_pos i) rfl
    simp only [List.get?_cons_succ] at hi
    have hr := scanStep_forward_at rest i c hi
      (fun j dd hj hg => hprev (j + 1) dd (by omega) hg) hfwd
    simp [scanStep, h1, h2, hr]

theorem scanStep_reverse_at {b : Bool} {e : Pt} :
    ∀ (pool : List Curve) (i : Nat) (c : Curve),
    pool.get? i = some c →
    (∀ j d, j < i → pool.get? j = some d →
      (b || ptNear d.startPoint e) = false ∧ ptNear d.endPoint e = false) →
    (b || ptNear c.startPoint e) = false → ptNear c.endPoint e = true →
    scanStep b e pool = some (c.reverseSegs, c.startPoint, pool.eraseIdx i)
  | [], i, c, hi, _, _, _ => by simp at hi
  | d :: rest, 0, c, hi, _, hnf, hrev => by
    simp only [List.get?_cons_zero, Option.some.injEq] at hi
    subst hi
    simp [scanStep, hnf, hrev]
  | d :: rest, i + 1, c, hi, hprev, hnf, hrev => by
    obtain ⟨h1, h2⟩ := hprev 0 d (Nat.succ_pos i) rfl
    simp only [List.get?_cons_succ] at hi
    have hr := scanStep_reverse_at rest i c hi
      (fun j dd hj hg => hprev (j + 1) dd (by omega) hg) hnf hrev
    simp [scanStep, h1, h2, hr]

/-- C1 (amended): during ring assembly the stitcher performs a single scan of
the remaining fragments in pool order and absorbs the first fragment that
matches either way: per fragment the forward test (start point near the
trailing endpoint, or unconditionally on the very first absorption) takes
precedence over the reverse test (end point near the trailing endpoint), but
a later fragment's forward match does not take precedence over an earlier
fragment's reverse match. Forward absorption keeps a compound fragment's
sub-curves in original order; reverse absorption flips a simple curve's
point order and reverses both the sub-curve order and each sub-curve's point
order of a compound fragment. -/
theorem C1_single_scan_first_match (b : Bool) (e : Pt) (pool : List Curve)
    (i : Nat) (c : Curve) (hi : pool.get? i = some c)
    (hprev : ∀ j d, j < i → pool.get? j = some d →
      (b || ptNear d.startPoint e) = false ∧ ptNear d.endPoint e = false) :
    ((b || ptNear c.startPoint e) = true →
      scanStep b e pool = some (c.forwardSegs, c.endPoint, pool.eraseIdx i))
    ∧ ((b || ptNear c.startPoint e) = false → ptNear c.endPoint e = true →
      scanStep b e pool = some (c.reverseSegs, c.startPoint, pool.eraseIdx i))
    ∧ (∀ cs, Curve.forwardSegs (.compound cs) = cs)
    ∧ (∀ ps, Curve.reverseSegs (.simple ps) = [ps.reverse])
    ∧ (∀ cs, Curve.reverseSegs (.compound cs) = cs.reverse.map List.reverse) :=
  ⟨fun hf => scanStep_forward_at pool i c hi hprev hf,
   fun hnf hr => scanStep_reverse_at pool i c hi hprev hnf hr,
   fun _ => rfl, fun _ => rfl, fun _ => rfl⟩

/-- C1 (witness): the amended scan theorem applied at index 0 of the
two-fragment pool `[exRevCurve, exFwdCurve]` with trailing endpoint
`(1, 0)`: the head fragment reverse-matches and is absorbed reversed. -/
theorem C1_single_scan_first_match_witness :
    scanStep false exEndCC [exRevCurve, exFwdCurve]
      = some (Curve.reverseSegs exRevCurve, Curve.startPoint exRevCurve,
          [exRevCurve, exFwdCurve].eraseIdx 0) :=
  (C1_single_scan_first_match false exEndCC [exRevCurve, exFwdCurve] 0 exRevCurve
    (by decide) (fun j d hj _ => absurd hj (Nat.not_lt_zero j))).2.1
    (by with_unfolding_all decide) (by with_unfolding_all decide)

/-- C1 (counterexample): the claim's two-pass rule (all forward matches
scanned before any reverse match is considered) disagrees with the code's
single scan. With trailing endpoint `(1, 0)` and pool
`[exRevCurve, exFwdCurve]`, the code absorbs `exRevCurve` reversed although
the forward match `exFwdCurve` exists later in the pool, which the claimed
rule would have absorbed forward. -/
theorem C1_counterexample :
    scanStep false exEndCC [exRevCurve, exFwdCurve]
      = some (Curve.reverseSegs exRevCurve, Curve.startPoint exRevCurve, [exFwdCurve])
    ∧ scanStepClaim false exEndCC [exRevCurve, exFwdCurve]
      = some (Curve.forwardSegs exFwdCurve, Curve.endPoint exFwdCurve, [exRevCurve])
    ∧ scanStep false exEndCC [exRevCurve, exFwdCurve]
      ≠ scanStepClaim false exEndCC [exRevCurve, exFwdCurve] := by
  with_unfolding_all decide

/-- C2 (confirmed): the inner stitching loop stops absorbing exactly when a
full scan absorbs nothing (`scanStep` returns `none`, in which case the
state is returned unchanged), the pool is exhausted, or the ring's start and
trailing endpoints coincide within `ε = 1e-14` (`ringIsClosed`): any final
state of the loop satisfies one of the three conditions. -/
theorem C2_inner_loop_stop (fuel : Nat) (st : LoopState)
    (hf : st.pool.length ≤ fuel) :
    (scanStep st.bFirst st.endCC st.pool = none → buildRingLoop fuel st = st)
    ∧ (scanStep (buildRingLoop fuel st).bFirst (buildRingLoop fuel st).endCC
        (buildRingLoop fuel st).pool = none
      ∨ (buildRingLoop fuel st).pool = []
      ∨ ringIsClosed (buildRingLoop fuel st).ring = true) := by
  induction fuel generalizing st with
  | zero =>
    have hnil : st.pool = [] := List.length_eq_zero.mp (Nat.le_zero.mp hf)
    exact ⟨fun _ => rfl, Or.inr (Or.inl hnil)⟩
  | succ fuel ih =>
    constructor
    · intro hnone
      rw [buildRingLoop, hnone]
    · rw [buildRingLoop]
      cases hs : scanStep st.bFirst st.endCC st.pool with
      | none => exact Or.inl hs
      | some v =>
        obtain ⟨segs, e', p'⟩ := v
        dsimp only
        have hlen : p'.length + 1 = st.pool.length := scanStep_length hs
        by_cases hstop : (p'.isEmpty || ringIsClosed (st.ring ++ segs)) = true
        · rw [if_pos hstop]
          rcases Bool.or_eq_true_iff.mp hstop with h | h
          · exact Or.inr (Or.inl (List.isEmpty_iff.mp h))
          · exact Or.inr (Or.inr h)
        · rw [if_neg hstop]
          exact (ih ⟨st.ring ++ segs, e', false, p'⟩
            (show p'.length ≤ fuel by omega)).2

/-- C2 (witness): the stop theorem applied to a one-fragment pool holding
the closed square `sqOne`. -/
theorem C2_inner_loop_stop_witness :
    (scanStep true ⟨0, 0⟩ [sqOne] = none →
      buildRingLoop 1 ⟨[], ⟨0, 0⟩, true, [sqOne]⟩ = ⟨[], ⟨0, 0⟩, true, [sqOne]⟩)
    ∧ (scanStep (buildRingLoop 1 ⟨[], ⟨0, 0⟩, true, [sqOne]⟩).bFirst
        (buildRingLoop 1 ⟨[], ⟨0, 0⟩, true, [sqOne]⟩).endCC
        (buildRingLoop 1 ⟨[], ⟨0, 0⟩, true, [sqOne]⟩).pool = none
      ∨ (buildRingLoop 1 ⟨[], ⟨0, 0⟩, true, [sqOne]⟩).pool = []
      ∨ ringIsClosed (buildRingLoop 1 ⟨[], ⟨0, 0⟩, true, [sqOne]⟩).ring = true) :=
  C2_inner_loop_stop 1 ⟨[], ⟨0, 0⟩, true, [sqOne]⟩ (by decide)

/-- C3 (amended): the ring classifier selects a ring of maximum area as the
exterior ring, but on ties the `>=` comparison lets every later maximum
replace the earlier one, so the LAST ring (in insertion order) attaining the
maximum area is selected: the chosen index carries the maximum area, and
every ring after it has strictly smaller area. Stated for the non-negative
area capability `ringArea`. -/
theorem C3_last_max_selected (A : RingCC → ℚ) (pool : List Curve)
    (hA : ∀ r, 0 ≤ A r) (hne : (stitchRings A pool).rings ≠ []) :
    ∃ i ri, (stitchRings A pool).largest = some i
      ∧ (stitchRings A pool).rings.get? i = some ri
      ∧ (∀ rj ∈ (stitchRings A pool).rings, A rj ≤ A ri)
      ∧ (∀ j rj, i < j → (stitchRings A pool).rings.get? j = some rj →
          A rj < A ri) := by
  have hinv := stitchLoop_largest_inv A pool.length pool ⟨[], 0, none, 0⟩ rfl
  simp only [stitchRings] at hne ⊢
  rcases foldLargestAux_spec
      ((stitchLoop A pool.length ⟨[], 0, none, 0⟩ pool).rings.map A) (0, none) 0
    with ⟨_, hall⟩ | ⟨j, a, hget, hres, _, hall, hstrict⟩
  · obtain ⟨r0, hr0⟩ := List.exists_mem_of_ne_nil _ hne
    have hlt : A r0 < 0 := hall (A r0) (List.mem_map_of_mem A hr0)
    exact absurd (hA r0) (not_le.mpr hlt)
  · have hL : ((stitchLoop A pool.length ⟨[], 0, none, 0⟩ pool).dfLargestArea,
        (stitchLoop A pool.length ⟨[], 0, none, 0⟩ pool).largest) = (a, some (0 + j)) :=
      hinv.trans hres
    have hlargest : (stitchLoop A pool.length ⟨[], 0, none, 0⟩ pool).largest = some j := by
      have h2 := congrArg Prod.snd hL
      simpa using h2
    have hget2 : ∃ ri, (stitchLoop A pool.length ⟨[], 0, none, 0⟩ pool).rings.get? j
        = some ri ∧ A ri = a := by
      simp only [List.get?_eq_getElem?, List.getElem?_map] at hget
      cases hri : (stitchLoop A pool.length ⟨[], 0, none, 0⟩ pool).rings[j]? with
      | none => rw [hri] at hget; cases hget
      | some ri =>
        rw [hri] at hget
        simp only [Option.map_some', Option.some.injEq] at hget
        exact ⟨ri, by rw [List.get?_eq_getElem?, hri], hget⟩
    obtain ⟨ri, hri, hAri⟩ := hget2
    refine ⟨j, ri, hlargest, hri, ?_, ?_⟩
    · intro rj hrj
      obtain ⟨n, hn⟩ := List.get?_of_mem hrj
      have hm : ((stitchLoop A pool.length ⟨[], 0, none, 0⟩ pool).rings.map A).get? n
          = some (A rj) := by
        simp only [List.get?_eq_getElem?, List.getElem?_map]
        rw [List.get?_eq_getElem?] at hn
        rw [hn]
        rfl
      exact hAri ▸ hall n (A rj) hm
    · intro k rk hk hgetk
      have hm : ((stitchLoop A pool.length ⟨[], 0, none, 0⟩ pool).rings.map A).get? k
          = some (A rk) := by
        simp only [List.get?_eq_getElem?, List.getElem?_map]
        rw [List.get?_eq_getElem?] at hgetk
        rw [hgetk]
        rfl
      exact hAri ▸ hstrict k (A rk) hk hm

/-- C3 (witness): the amended selection theorem applied to a one-fragment
pool holding the closed square `sqOne`. -/
theorem C3_last_max_selected_witness :
    ∃ i ri, (stitchRings ringArea [sqOne]).largest = some i
      ∧ (stitchRings ringArea [sqOne]).rings.get? i = some ri
      ∧ (∀ rj ∈ (stitchRings ringArea [sqOne]).rings, ringArea rj ≤ ringArea ri)
      ∧ (∀ j rj, i < j → (stitchRings ringArea [sqOne]).rings.get? j = some rj →
          ringArea rj < ringArea ri) :=
  C3_last_max_selected ringArea [sqOne] ringArea_nonneg
    (by with_unfolding_all decide)

/-- C3 (counterexample): two disjoint closed unit squares tie on area 1; the
code selects the SECOND ring (index 1), not the first encountered, and
swapping the two fragments changes which ring becomes the exterior ring of
the built polygon — refuting both the first-wins tie-break and the
reordering-invariance asserted by the claim. -/
theorem C3_counterexample :
    (stitchRings ringArea [sqOne, sqTwo]).rings.length = 2
    ∧ ringArea ((stitchRings ringArea [sqOne, sqTwo]).rings.headD [])
      = ringArea ((stitchRings ringArea [sqOne, sqTwo]).rings.getLastD [])
    ∧ (stitchRings ringArea [sqOne, sqTwo]).largest = some 1
    ∧ (buildPolygonFromRings (stitchRings ringArea [sqOne, sqTwo])).head?
      ≠ (buildPolygonFromRings (stitchRings ringArea [sqTwo, sqOne])).head? := by
  with_unfolding_all decide

/-- C4 (amended): a candidate ring that fails to close is discarded with one
warning and processing continues (third conjunct: the outer loop step on an
unclosed ring attempt increments the warning count and recurses on the
remaining pool); but the feature's geometry field is NOT left unset — the
field is always assigned (first conjunct), and when no ring closed at all it
is assigned the empty polygon (second conjunct). -/
theorem C4_field_always_assigned (A : RingCC → ℚ) (pool : List Curve) :
    (joinSurfaceGeomField A pool).isSome = true
    ∧ ((stitchRings A pool).largest = none → joinSurfaceGeomField A pool = some [])
    ∧ (∀ fuel st p, p ≠ [] →
        ringIsClosed (buildRingLoop p.length ⟨[], ⟨0, 0⟩, true, p⟩).ring = false →
        stitchLoop A (fuel + 1) st p
          = stitchLoop A fuel
              ⟨st.rings, st.dfLargestArea, st.largest, st.warnings + 1⟩
              (buildRingLoop p.length ⟨[], ⟨0, 0⟩, true, p⟩).pool) := by
  refine ⟨rfl, ?_, ?_⟩
  · intro h
    rw [joinSurfaceGeomField, buildPolygonFromRings, h]
  · intro fuel st p hp hclosed
    have hpe : p.isEmpty = false := by
      cases p with
      | nil => exact absurd rfl hp
      | cons a l => rfl
    rw [stitchLoop, hpe]
    dsimp only
    rw [hclosed]
    rfl

/-- C4 (witness): the amended theorem applied to the three-fragment triangle
pool with a one-unit closing gap: the geometry field receives the empty
polygon, and the first (failed) ring attempt costs one warning and
continues. -/
theorem C4_field_always_assigned_witness :
    joinSurfaceGeomField ringArea [triA, triB, triC] = some []
    ∧ stitchLoop ringArea 3 ⟨[], 0, none, 0⟩ [triA, triB, triC]
        = stitchLoop ringArea 2 ⟨[], 0, none, 0 + 1⟩
            (buildRingLoop 3 ⟨[], ⟨0, 0⟩, true, [triA, triB, triC]⟩).pool :=
  ⟨(C4_field_always_assigned ringArea [triA, triB, triC]).2.1
      (by with_unfolding_all decide),
   (C4_field_always_assigned ringArea [triA, triB, triC]).2.2 2 ⟨[], 0, none, 0⟩
      [triA, triB, triC] (by decide) (by with_unfolding_all decide)⟩

/-- C4 (counterexample): the triangle with a one-unit gap — the ring is
discarded with exactly one warning and no closed ring remains, but the
feature's geometry field is assigned an empty polygon rather than left
unset (`SetGeomFieldDirectly` runs unconditionally). -/
theorem C4_counterexample :
    (stitchRings ringArea [triA, triB, triC]).warnings = 1
    ∧ (stitchRings ringArea [triA, triB, triC]).rings = []
    ∧ joinSurfaceGeomField ringArea [triA, triB, triC] = some []
    ∧ joinSurfaceGeomField ringArea [triA, triB, triC] ≠ none := by
  with_unfolding_all decide

/-- C5 (confirmed): in area-layer polygonization, a first pass without
crossing repair whose polygon count differs from the expected feature count
triggers exactly one second pass with crossing repair, and no further pass
occurs even if the count still mismatches: the pass trace is `[false]` on a
matching first pass and `[false, true]` otherwise, never longer than two. -/
theorem C5_retry_exactly_once {L P : Type} (E : PolyEngine L P)
    (lines : List L) (expected : Nat) :
    ((Polygonize E lines false).1.length = expected →
      polygonizeAreaPasses E lines expected
        = ((Polygonize E lines false).1, [false]))
    ∧ ((Polygonize E lines false).1.length ≠ expected →
      polygonizeAreaPasses E lines expected
        = ((Polygonize E lines true).1, [false, true]))
    ∧ (polygonizeAreaPasses E lines expected).2.length ≤ 2 := by
  simp only [polygonizeAreaPasses]
  by_cases h : (Polygonize E lines false).1.length = expected
  · rw [if_neg (not_not_intro h)]
    exact ⟨fun _ => rfl, fun hne => absurd h hne, by simp⟩
  · rw [if_pos h]
    exact ⟨fun he => absurd he h, fun _ => rfl, by simp⟩

/-- C5 (witness): with the identity extraction engine, one line and an
expected count of five, the first pass count mismatches and the trace is
exactly `[false, true]`. -/
theorem C5_retry_exactly_once_witness :
    polygonizeAreaPasses exPolyEngineId [1] 5
      = ((Polygonize exPolyEngineId [1] true).1, [false, true]) :=
  (C5_retry_exactly_once exPolyEngineId [1] 5).2.1 (by decide)

/-- C6 (confirmed): for an empty boundary-line batch the polygonizer returns
an empty multipolygon immediately, with zero invocations of the underlying
geometry engine, whether or not crossing repair was requested. -/
theorem C6_empty_batch {L P : Type} (E : PolyEngine L P) (fixCrossing : Bool) :
    Polygonize E ([] : List L) fixCrossing = ([], 0) := rfl

/-- C8 (confirmed): crossing repair on a non-empty batch unions the full
line collection with its own first member; extraction runs on the union's
members exactly when the union result is a geometry collection or a
multi-line-string, and on the original uncorrected batch otherwise
(including a null union). -/
theorem C8_crossing_repair {L P : Type} (E : PolyEngine L P) (l0 : L)
    (rest : List L) :
    (∀ k ms, E.union (l0 :: rest) l0 = some (k, ms) →
      (k = GType.geometryCollection ∨ k = GType.multiLineString) →
      (Polygonize E (l0 :: rest) true).1 = E.polygonizeLines ms)
    ∧ (∀ k ms, E.union (l0 :: rest) l0 = some (k, ms) →
      ¬(k = GType.geometryCollection ∨ k = GType.multiLineString) →
      (Polygonize E (l0 :: rest) true).1 = E.polygonizeLines (l0 :: rest))
    ∧ (E.union (l0 :: rest) l0 = none →
      (Polygonize E (l0 :: rest) true).1 = E.polygonizeLines (l0 :: rest)) := by
  refine ⟨?_, ?_, ?_⟩
  · intro k ms hu hk
    simp only [Polygonize, hu, if_true]
    rw [if_pos hk]
  · intro k ms hu hk
    simp only [Polygonize, hu, if_true]
    rw [if_neg hk]
  · intro hu
    simp only [Polygonize, hu, if_true]

/-- C8 (witness): with an engine whose union yields a multi-line-string with
members `[2, 3]`, extraction on a one-line batch with repair requested runs
on the union members. -/
theorem C8_crossing_repair_witness :
    (Polygonize exPolyEngineMLS [1] true).1 = [2, 3] := by
  have h := (C8_crossing_repair exPolyEngineMLS 1 []).1 GType.multiLineString
    [2, 3] rfl (Or.inr rfl)
  simpa [exPolyEngineMLS] using h

/-- C7 (amended): a feature without a companion point is skipped with no
diagnostic; a feature with a companion point receives the first valid
candidate (in candidate order) that contains the point in its AREA field
with no diagnostic; but when no valid candidate contains the point the
empty polygon is written through the index-less setter — i.e. to the
feature's default (first) geometry field, not to the area field — together
with exactly one diagnostic. -/
theorem C7_default_field_on_failure {P Q : Type} (E : AssocEngine P Q)
    (polys : List P) (areaIdx : Nat) (f : AFeature P Q) :
    (f.point = none → associateFeature E polys areaIdx f = (f, 0))
    ∧ (∀ q, f.point = some q →
        ((∀ p ∈ polys, (E.isValid p && E.contains p q) = false) →
          associateFeature E polys areaIdx f
            = (setGeometry f GeomVal.emptyPoly, 1))
        ∧ (∀ i p, polys.get? i = some p →
            (E.isValid p && E.contains p q) = true →
            (∀ j pj, j < i → polys.get? j = some pj →
              (E.isValid pj && E.contains pj q) = false) →
            associateFeature E polys areaIdx f
              = (setGeomField f areaIdx (GeomVal.poly p), 0))) := by
  constructor
  · intro h
    rw [associateFeature, h]
  · intro q hq
    constructor
    · intro hnone
      rw [associateFeature, hq]
      have hf : polys.find? (fun p => E.isValid p && E.contains p q) = none :=
        List.find?_eq_none.mpr fun x hx => by
          rw [hnone x hx]
          exact Bool.false_ne_true
      dsimp only
      rw [hf]
    · intro i p hi hp hprev
      rw [associateFeature, hq]
      dsimp only
      rw [find?_first (fun p => E.isValid p && E.contains p q) polys i p hi hp hprev]

/-- C7 (witness): with equality as the containment test, the feature whose
point is `7` receives the second candidate `7` (the first valid containing
one) in its area field, with no diagnostic. -/
theorem C7_default_field_on_failure_witness :
    associateFeature exAssocEq [5, 7] 0 exFeatPoint7
      = (setGeomField exFeatPoint7 0 (GeomVal.poly 7), 0) := by
  refine ((C7_default_field_on_failure exAssocEq [5, 7] 0 exFeatPoint7).2 7
    rfl).2 1 7 (by decide) (by decide) ?_
  intro j pj hj hget
  cases j with
  | zero =>
    simp only [List.get?_cons_zero, Option.some.injEq] at hget
    subst hget
    decide
  | succ j => omega

/-- C7 (counterexample): with the area field at index 1 and no containing
candidate, the code emits one diagnostic but writes the empty polygon into
geometry field 0 (`SetGeometry`), leaving the area field (index 1) unset —
the claim's "empty polygon geometry is assigned to the area field" fails. -/
theorem C7_counterexample :
    (associateFeature exAssocNone [99] 1 exFeatTwoFields).2 = 1
    ∧ (associateFeature exAssocNone [99] 1 exFeatTwoFields).1.fields.get? 1
      = some none
    ∧ (associateFeature exAssocNone [99] 1 exFeatTwoFields).1.fields.get? 0
      = some (some GeomVal.emptyPoly) := by
  decide

/-- C9 (amended): `GetNextFeature` checks the already-joined flag and
triggers `JoinGeomLayers` (which sets the flag first) before scanning, so
after any `GetNextFeature` call the flag is set and the join has run at most
once in total (it runs during the call exactly when the flag was unset); but
`GetNextFeatureRef` neither checks the flag nor joins, so the flag and join
count pass through it unchanged. -/
theorem C9_join_before_read (F : Type) (J : List F → List F)
    (gF aF : Option (F → Bool)) (st : LayerState F) :
    (getNextFeature J gF aF st).2.geomsJoined = true
    ∧ (getNextFeature J gF aF st).2.joinCount
        = st.joinCount + (if st.geomsJoined then 0 else 1)
    ∧ (getNextFeatureRef gF aF st).2.geomsJoined = st.geomsJoined
    ∧ (getNextFeatureRef gF aF st).2.joinCount = st.joinCount := by
  obtain ⟨hr1, hr2, _⟩ := getNextFeatureRef_flags gF aF st
  refine ⟨?_, ?_, hr1, hr2⟩
  · rw [getNextFeature]
    by_cases hj : st.geomsJoined = true
    · rw [if_pos hj, (getNextFeatureLoop_flags gF aF _ st).1]
      exact hj
    · rw [if_neg hj, (getNextFeatureLoop_flags gF aF _ (joinGeomLayers J st)).1]
      rfl
  · rw [getNextFeature]
    by_cases hj : st.geomsJoined = true
    · rw [if_pos hj, (getNextFeatureLoop_flags gF aF _ st).2, if_pos hj]
      exact (Nat.add_zero st.joinCount).symm
    · rw [if_neg hj, (getNextFeatureLoop_flags gF aF _ (joinGeomLayers J st)).2,
        if_neg hj]
      rfl

/-- C9 (counterexample): on an unjoined one-feature layer,
`GetNextFeatureRef` returns the feature to its caller while `bGeomsJoined`
is still false and `JoinGeomLayers` has never run (join count 0) — so not
every data-returning read path is guarded by the already-joined flag. -/
theorem C9_counterexample :
    getNextFeatureRef (F := Nat) none none exLayerUnjoined
      = (some 7, ⟨[7], 1, false, 0⟩)
    ∧ exLayerUnjoined.geomsJoined = false
    ∧ (getNextFeatureRef (F := Nat) none none exLayerUnjoined).2.joinCount = 0 := by
  decide

/-- C10 (amended): the keyed lookup resets the cursor and scans forward, but
its loop treats the provider's null result for a filter-rejected feature as
end-of-data: it returns the first key-matching feature within the maximal
leading run of filter-passing features (`takeWhile`), so a matching feature
behind any filtered-out feature is never found. A returned feature always
passes the filters and matches the key, and the cursor is left just past the
returned feature rather than restored. -/
theorem C10_lookup_stops_at_filtered (F : Type) (gF aF : Option (F → Bool))
    (key : F → Bool) (st : LayerState F) :
    (getFeatureRefByKey gF aF key st).1
      = (st.features.takeWhile (filtersPass gF aF)).find? key
    ∧ (∀ f, (getFeatureRefByKey gF aF key st).1 = some f →
        filtersPass gF aF f = true ∧ key f = true)
    ∧ (∀ f, (getFeatureRefByKey gF aF key st).1 = some f →
        1 ≤ (getFeatureRefByKey gF aF key st).2.featureIdx
        ∧ (getFeatureRefByKey gF aF key st).2.features.get?
            ((getFeatureRefByKey gF aF key st).2.featureIdx - 1) = some f) := by
  have hmain : (getFeatureRefByKey gF aF key st).1
      = (st.features.takeWhile (filtersPass gF aF)).find? key := by
    rw [getFeatureRefByKey]
    rw [getFeatureRefLoop_find gF aF key _ _ (by simp)]
    simp
  refine ⟨hmain, ?_, ?_⟩
  · intro f hf
    rw [hmain] at hf
    exact ⟨List.mem_takeWhile_imp (List.mem_of_find?_eq_some hf),
      List.find?_some hf⟩
  · intro f hf
    rw [getFeatureRefByKey] at hf ⊢
    exact getFeatureRefLoop_found gF aF key _ _ f hf

/-- C10 (witness): looking up key `5` on an unfiltered three-feature layer
returns a feature that passes the (absent) filters and matches the key. -/
theorem C10_lookup_stops_at_filtered_witness :
    filtersPass (F := Nat) none none 5 = true ∧ exKey5 5 = true :=
  (C10_lookup_stops_at_filtered Nat none none exKey5 exLayerThree).2.1 5
    (by decide)

/-- C10 (counterexample): with a filter rejecting feature `0` and feature
`1` both passing the filter and matching the key, the lookup returns
nothing: the loop stopped at the filtered-out feature `0` instead of
scanning past it, although a filter-passing key match exists in the layer. -/
theorem C10_counterexample :
    (getFeatureRefByKey exFilterOnly1 none exKey1 exLayerTwo).1 = none
    ∧ exLayerTwo.features.get? 1 = some 1
    ∧ filtersPass exFilterOnly1 none 1 = true
    ∧ exKey1 1 = true := by
  decide
